import Mathlib

/-!
Verification of the doozer Go client connection layer (`conn.go`).

The Go source is shallowly embedded: the multiplexer goroutine becomes an
explicit state machine driven by a list of events (submissions, delivered
frames, reader failures, close requests); the pagination loops of `Getdir`
and `Walk` become fuel-indexed recursions (`none` = fuel exhausted, so a
`some` result at any fuel exhibits termination of the Go loop); machine
integers are `Nat`/`Int` with explicit reduction modulo `2^32` where the Go
code converts to `int32`; Go's `nil`-pointer dereferences and runtime panics
(division by zero, `make` with a negative size) are modelled as explicit
`panicked` outcomes.
-/

namespace Doozer

/-- The `int32` value space: tags and wire offsets are `int32` in Go; we
identify an `int32` with its unsigned bit pattern, a `Nat` below `W`. -/
def W : Nat := 2 ^ 32

/-- Connection-level (non-server) Go errors: `ErrClosed`, reader failures,
transport write failures, and `proto.Marshal` encoding failures.  Codes
distinguish individual error values. -/
inductive MErr where
  | errClosed
  | readErr (code : Nat)
  | writeErr (code : Nat)
  | encodeErr (code : Nat)
  deriving DecidableEq, Repr

/-- Server-signalled error codes carried by a `*Error` response
(`ErrRange`, `ErrNoEnt`, and any other code). -/
inductive SErr where
  | range
  | noent
  | codeE (n : Nat)
  deriving DecidableEq, Repr

/-- An error as seen by a caller of `call`: either a plain Go error
(`local`, failing the `err.(*Error)` type assertion) or a structured
`*Error` carrying a server code (`server`). -/
inductive CErr where
  | local (e : MErr)
  | server (e : SErr)
  deriving DecidableEq, Repr

/-- The protocol `response` record (`msg.pb.go`); optional fields are
`Option`, mirroring the pointer-valued protobuf fields that `conn.go`
dereferences.  `value` is the byte-string payload. -/
structure Resp where
  tag : Option Nat
  rev : Option Int
  path : Option String
  value : String
  flags : Option Nat
  errCode : Option Nat
  errDetail : Option String
  len : Option Int
  deriving DecidableEq, Repr

/-- A response with every optional field absent and an empty value. -/
def emptyResp : Resp := ⟨none, none, none, "", none, none, none, none⟩

/-- Outcome of a Go call that can also crash: `ok`, an error return, or a
runtime panic. -/
inductive GoResult (α : Type) where
  | ok (a : α)
  | err (e : CErr)
  | panicked
  deriving DecidableEq, Repr

/-- Decidable equality for `Except`, needed to evaluate the embedded
operations on concrete server answers. -/
instance {ε α : Type} [DecidableEq ε] [DecidableEq α] :
    DecidableEq (Except ε α) := fun x y =>
  match x, y with
  | .ok a, .ok b =>
    if h : a = b then isTrue (by rw [h])
    else isFalse (fun hc => by cases hc; exact h rfl)
  | .error e, .error f =>
    if h : e = f then isTrue (by rw [h])
    else isFalse (fun hc => by cases hc; exact h rfl)
  | .ok _, .error _ => isFalse (fun hc => Except.noConfusion hc)
  | .error _, .ok _ => isFalse (fun hc => Except.noConfusion hc)

/-! ## Frame codec (`Conn.read` / `Conn.write`) -/

/-- The four big-endian bytes of `n`'s low 32 bits, most significant
first: the byte pattern `encoding/binary` writes for `int32(n)`. -/
def be32 (n : Nat) : List Nat :=
  [n / 2 ^ 24 % 256, n / 2 ^ 16 % 256, n / 2 ^ 8 % 256, n % 256]

/-- The unsigned value of four big-endian bytes. -/
def beVal (b0 b1 b2 b3 : Nat) : Nat :=
  b0 * 2 ^ 24 + b1 * 2 ^ 16 + b2 * 2 ^ 8 + b3

/-- `Conn.write` (the frame writer), restricted to the bytes it emits when
the underlying stream accepts them: `binary.Write(..., int32(len(buf)))`
emits the 4-byte big-endian pattern of `len(buf) mod 2^32`, then the
payload follows. -/
def writeFrame (payload : List Nat) : List Nat :=
  be32 (payload.length % W) ++ payload

/-- Outcome of `Conn.read`: a frame payload, a transport error
(`io.EOF` / `io.ErrUnexpectedEOF` from a short read or closed stream), or
a runtime panic. -/
inductive FrameRead where
  | ok (payload : List Nat)
  | transportErr
  | panicked
  deriving DecidableEq, Repr

/-- `Conn.read` (the frame reader) applied to the remaining bytes of the
stream.  `binary.Read` fills an `int32` from 4 bytes (erroring if fewer
remain); a prefix with the high bit set is a negative `int32`, and
`make([]byte, size)` with a negative size panics; otherwise
`io.ReadFull` reads exactly `size` bytes, erroring if fewer remain. -/
def readFrame (stream : List Nat) : FrameRead :=
  match stream with
  | b0 :: b1 :: b2 :: b3 :: rest =>
    let u := beVal b0 b1 b2 b3
    if 2 ^ 31 ≤ u then .panicked
    else if rest.length < u then .transportErr
    else .ok (rest.take u)
  | _ => .transportErr

/-! ## The multiplexer (`Conn.mux`)

The tag table `txns : map[int32]*txn` is an association list from tags to
`Option Nat`: a key mapped to `some id` holds the live transaction `id`; a
key mapped to `none` models Go's `txns[n] = nil` (the key is present in the
map — `range` visits it, `len` counts it — but `txns[n]` reads back `nil`).
Key uniqueness is maintained by the operations themselves. -/

/-- Association-list lookup distinguishing an absent key (`none`) from a
key present with a `nil` value (`some none`). -/
def tLookup : List (Nat × Option Nat) → Nat → Option (Option Nat)
  | [], _ => none
  | (k, v) :: rest, key => if k = key then some v else tLookup rest key

/-- Go's `txns[k]` read: `nil` both when the key is absent and when it is
present mapped to `nil`. -/
def goLookup (t : List (Nat × Option Nat)) (k : Nat) : Option Nat :=
  (tLookup t k).bind id

/-- Go's `txns[k] = v` map store (replacing any existing entry). -/
def tSet : List (Nat × Option Nat) → Nat → Option Nat → List (Nat × Option Nat)
  | [], k, v => [(k, v)]
  | (k0, v0) :: rest, k, v =>
    if k0 = k then (k, v) :: rest else (k0, v0) :: tSet rest k v

/-- Go's `delete(txns, k)` (keys are unique, so removing the first
occurrence is removal). -/
def tDel : List (Nat × Option Nat) → Nat → List (Nat × Option Nat)
  | [], _ => []
  | (k0, v0) :: rest, k =>
    if k0 = k then rest else (k0, v0) :: tDel rest k

/-- Whether the map contains the key at all (Go's two-valued lookup
`_, ok := txns[k]`). -/
def tMem (t : List (Nat × Option Nat)) (k : Nat) : Bool :=
  (tLookup t k).isSome

/-- The tag scan `for t := txns[n]; t != nil; t = txns[n] { n++ }` of
`mux`: starting at the current cursor, advance (as an `int32`, i.e. modulo
`W`) while the looked-up value is non-nil.  The Go loop is unbounded; the
embedding carries fuel, and `mux` supplies `table size + 1`, which the
scan-specification theorem shows is enough whenever the scanned window
does not wrap. -/
def scanTag (t : List (Nat × Option Nat)) : Nat → Nat → Nat
  | n, 0 => n % W
  | n, fuel + 1 =>
    if (goLookup t (n % W)).isSome then scanTag t (n + 1) fuel else n % W

/-- How a transaction's `done` signal fired: with a locally recorded
encode error (`t.err` set in the submission arm), with the connection's
terminal error (`t.err` set in the `error:` broadcast), or with a decoded
response (`t.resp` set in the delivery arm). -/
inductive TxnRes where
  | localErr (e : MErr)
  | failed (e : MErr)
  | resp (r : Resp)
  deriving DecidableEq, Repr

/-- A decoded frame as the delivery arm sees it: a `proto.Unmarshal`
failure, a response with a nil tag, or a tagged response. -/
inductive Frame where
  | decodeFail
  | noTag
  | tagged (tag : Nat) (r : Resp)
  deriving DecidableEq, Repr

/-- One event consumed by the `mux` select loop.  A submission carries
the caller's transaction id and the outcomes of the two external calls
the arm makes: `proto.Marshal` (`enc`: `none` = success) and the
transport write (`wr`: consulted only when encoding succeeded). -/
inductive MEvent where
  | send (id : Nat) (enc : Option MErr) (wr : Option MErr)
  | msg (f : Frame)
  | readFail (e : MErr)
  | stop
  deriving DecidableEq, Repr

/-- The observable state of one `mux` run: the tag table and cursor, the
connection handle's recorded error (`c.err`), whether `close(c.stopped)`
and `c.conn.Close()` have executed, whether the goroutine panicked,
whether it exited its loop, how many times the terminal transition ran,
the `(id, tag)` stamped on each admitted request (`t.req.Tag = &tag`), and
each fired completion in order. -/
structure MuxState where
  txns : List (Nat × Option Nat)
  n : Nat
  cErr : Option MErr
  stoppedClosed : Bool
  connClosed : Bool
  panicked : Bool
  exited : Bool
  termCount : Nat
  assigned : List (Nat × Nat)
  outcomes : List (Nat × TxnRes)
  deriving DecidableEq, Repr

/-- The state of `mux` right after `dial`. -/
def muxInit : MuxState :=
  ⟨[], 0, none, false, false, false, false, 0, [], []⟩

/-- The `error:` epilogue of `mux`: record the error on the handle, fail
and complete every transaction still in the table, close the stream,
close `c.stopped`, and exit.  If the table holds a `nil` entry (left by a
failed encode), the broadcast loop executes `t.err = err` on a nil
pointer: the goroutine panics after recording `c.err` and before closing
the stream or `c.stopped`. -/
def terminateM (s : MuxState) (e : MErr) : MuxState :=
  if s.txns.all (fun p => p.2.isSome) then
    { s with cErr := some e,
             outcomes := s.outcomes ++
               s.txns.filterMap (fun p => p.2.map (fun id => (id, TxnRes.failed e))),
             connClosed := true, stoppedClosed := true,
             exited := true, termCount := s.termCount + 1 }
  else
    { s with cErr := some e, panicked := true, exited := true,
             termCount := s.termCount + 1 }

/-- One iteration of the `mux` select loop (after exit, events are no
longer consumed).  Submission: scan for a tag, record the transaction,
stamp the request; a `proto.Marshal` failure stores `nil` over the entry,
fails the transaction, and continues; a transport write failure enters
the terminal state.  Delivery: decode failures, nil tags, and unknown
tags are dropped; otherwise the entry is deleted and the response
attached.  A reader error or a stop request enters the terminal state
(the latter with `ErrClosed`). -/
def muxStep (s : MuxState) (e : MEvent) : MuxState :=
  if s.exited then s else
  match e with
  | .send id enc wr =>
    let tag := scanTag s.txns s.n (s.txns.length + 1)
    let s1 := { s with txns := tSet s.txns tag (some id), n := tag,
                       assigned := s.assigned ++ [(id, tag)] }
    match enc with
    | some ee =>
      { s1 with txns := tSet s1.txns tag none,
                outcomes := s1.outcomes ++ [(id, TxnRes.localErr ee)] }
    | none =>
      match wr with
      | some we => terminateM s1 we
      | none => s1
  | .msg f =>
    match f with
    | .decodeFail => s
    | .noTag => s
    | .tagged tag r =>
      match goLookup s.txns tag with
      | none => s
      | some id =>
        { s with txns := tDel s.txns tag,
                 outcomes := s.outcomes ++ [(id, TxnRes.resp r)] }
  | .readFail e => terminateM s e
  | .stop => terminateM s MErr.errClosed

/-- A whole `mux` run over a sequence of events. -/
def muxRun (evs : List MEvent) : MuxState :=
  evs.foldl muxStep muxInit

/-! ## `Conn.call` and `Conn.Close` -/

/-- What a caller inside `call` observes: either `c.stopped` is closed
before the submission is accepted, or the transaction is accepted and its
`done` signal eventually fires with the given result. -/
inductive CallEvent where
  | stoppedFirst
  | admitted (res : TxnRes)
  deriving DecidableEq, Repr

/-- The value `call` returns to the public operation. -/
inductive CallResult where
  | terminal (e : Option MErr)
  | txnErr (e : MErr)
  | serverErr (code : Nat) (r : Resp)
  | ok (r : Resp)
  deriving DecidableEq, Repr

/-- `Conn.call`: the `Bool` records whether the transaction was sent to
the multiplexer.  In the `c.stopped` branch the recorded `c.err` is
returned without submitting; after completion, `t.err` wins if set,
otherwise a non-nil `t.resp.ErrCode` is turned into a structured error
(`newError(t)` — modelled from the spec: `newError` lives outside
`conn.go` and "decodes the code into a structured error" exposing the
request context), otherwise the call succeeds with the raw response. -/
def call (cErr : Option MErr) (ev : CallEvent) : Bool × CallResult :=
  match ev with
  | .stoppedFirst => (false, .terminal cErr)
  | .admitted res =>
    match res with
    | .localErr e => (true, .txnErr e)
    | .failed e => (true, .txnErr e)
    | .resp r =>
      match r.errCode with
      | some code => (true, .serverErr code r)
      | none => (true, .ok r)

/-- `Conn.Close`: a non-blocking send on the capacity-one `c.stop`
channel (`select` with a `default` arm).  The argument is whether a stop
signal is already pending; the result is the channel state afterwards.
The function is total and returns no error, mirroring Close's `func ()`
signature. -/
def closeSignal (_pending : Bool) : Bool := true

/-- `n` successive calls to `Close` starting from a given channel
state. -/
def closeIter : Nat → Bool → Bool
  | 0, b => b
  | n + 1, b => closeIter n (closeSignal b)

/-! ## Spec-modelled constants and helpers

These names are referenced by `conn.go` but defined elsewhere in the
repository (its `types.go` / `err.go`), which is not under `src/`. -/

/-- Modelled from the spec: the `set` event-flag bit ("the set and del
bits" masked by `Wait`); the concrete value is not visible in `src/`, a
distinct bit is used. -/
def set : Nat := 4

/-- Modelled from the spec: the `del` event-flag bit; the concrete value
is not visible in `src/`, a distinct bit is used. -/
def del : Nat := 8

/-- Modelled from the spec: the reserved sentinel revision value
"missing" ("absence is signaled by a reserved sentinel"); its concrete
value is not visible in `src/`. -/
def missingRev : Int := 0

/-- Modelled from the spec: the reserved sentinel revision value "dir"
("a directory is signaled by a reserved sentinel revision value"); its
concrete value is not visible in `src/`. -/
def dirRev : Int := -2

/-- The characters of the final `/`-separated segment: scan the path,
resetting the accumulator at each separator. -/
def basenameAux : List Char → List Char → List Char
  | [], acc => acc
  | c :: rest, acc =>
    if c = '/' then basenameAux rest [] else basenameAux rest (acc ++ [c])

/-- Modelled from the spec: `basename` "derives file name from the final
path segment"; not under `src/`. -/
def basename (p : String) : String :=
  ⟨basenameAux p.data []⟩

/-- An `Event` as produced by `Wait` and `Walk` (`{revision, path, body,
flag}`). -/
structure Event where
  rev : Int
  path : String
  body : String
  flag : Nat
  deriving DecidableEq, Repr

/-- A `FileInfo` as produced by the Stat family (`{name, length,
revision, isSet, isDir}`); the Go zero value has empty name and zeroed
fields. -/
structure FileInfo where
  name : String
  len : Int
  rev : Int
  isSet : Bool
  isDir : Bool
  deriving DecidableEq, Repr

/-- The Go zero value of `FileInfo`. -/
def FileInfo.zero : FileInfo := ⟨"", 0, 0, false, false⟩

/-! ## Paginated operations (`Getdir`, `Walk`) and the Stat family

Each public operation performs `call`s against the connection; a run of
the operation is determined by the server's answer to each request it
issues, so the embedding passes that answer function ("the server") as an
argument.  For `Getdir`/`Walk` the directory, glob and revision are fixed
for the whole loop, and the server answers per wire offset (the `int32`
pattern of the running offset, `off % W`). -/

/-- The loop body of `Conn.Getdir`: one `GETDIR` call per offset while
`lim != 0`; an `ErrRange` reply returns the accumulated names with no
error; any other error returns `nil` and that error; otherwise
`*t.resp.Path` (a panic if the reply has no path) is appended and the
offset advances as `lim` decreases.  Fuel-indexed; `none` = fuel ran
out. -/
def getdirLoop (srv : Nat → Except CErr Resp) (off : Nat) (lim : Int)
    (acc : List String) : Nat → Option (GoResult (List String))
  | 0 => none
  | fuel + 1 =>
    if lim = 0 then some (.ok acc)
    else
      match srv (off % W) with
      | .error (.server .range) => some (.ok acc)
      | .error e => some (.err e)
      | .ok r =>
        match r.path with
        | some p => getdirLoop srv (off + 1) (lim - 1) (acc ++ [p]) fuel
        | none => some .panicked

/-- `Conn.Getdir dir rev off lim` against a server answer function. -/
def Getdir (srv : Nat → Except CErr Resp) (off : Nat) (lim : Int)
    (fuel : Nat) : Option (GoResult (List String)) :=
  getdirLoop srv off lim [] fuel

/-- The loop body of `Conn.Walk`: same shape as `getdirLoop`, but each
reply contributes `Event{*t.resp.Rev, *t.resp.Path, t.resp.Value,
*t.resp.Flags}` — three pointer dereferences, a panic if any field is
absent; the flags are copied unmasked. -/
def walkLoop (srv : Nat → Except CErr Resp) (off : Nat) (lim : Int)
    (acc : List Event) : Nat → Option (GoResult (List Event))
  | 0 => none
  | fuel + 1 =>
    if lim = 0 then some (.ok acc)
    else
      match srv (off % W) with
      | .error (.server .range) => some (.ok acc)
      | .error e => some (.err e)
      | .ok r =>
        match r.rev, r.path, r.flags with
        | some rv, some p, some fl =>
          walkLoop srv (off + 1) (lim - 1) (acc ++ [⟨rv, p, r.value, fl⟩]) fuel
        | _, _, _ => some .panicked

/-- `Conn.Walk glob rev off lim` against a server answer function. -/
def Walk (srv : Nat → Except CErr Resp) (off : Nat) (lim : Int)
    (fuel : Nat) : Option (GoResult (List Event)) :=
  walkLoop srv off lim [] fuel

/-- `Conn.Wait glob rev` given the reply to its single `WAIT` call: on
success the event's `Flag` is `*t.resp.Flags & (set | del)`. -/
def Wait (reply : Except CErr Resp) : GoResult Event :=
  match reply with
  | .error e => .err e
  | .ok r =>
    match r.rev, r.path, r.flags with
    | some rv, some p, some fl => .ok ⟨rv, p, r.value, fl &&& (set ||| del)⟩
    | _, _, _ => .panicked

/-- `Conn.Stat path storeRev` given the reply to its `STAT` call:
returns `(int(*t.resp.Len), *t.resp.Rev)` (a panic if either field is
absent). -/
def Stat (reply : Except CErr Resp) : GoResult (Int × Int) :=
  match reply with
  | .error e => .err e
  | .ok r =>
    match r.len, r.rev with
    | some l, some rv => .ok (l, rv)
    | _, _ => .panicked

/-- `Conn.Statinfo rev path` against a per-path `STAT` answer function:
a `missing` sentinel revision becomes `ErrNoEnt` (modelled as a
no-entry error value; `ErrNoEnt` itself lives outside `src/`); otherwise
the `FileInfo` is filled, with `IsDir` from the `dir` sentinel and the
name from `basename`. -/
def Statinfo (srvS : String → Except CErr Resp) (path : String) :
    GoResult FileInfo :=
  match Stat (srvS path) with
  | .panicked => .panicked
  | .err e => .err e
  | .ok (l, frev) =>
    if frev = missingRev then .err (.server .noent)
    else .ok ⟨basename path, l, frev, true, frev = dirRev⟩

/-- The per-name loop of `Conn.Getdirinfo`, threading the mutable named
return `err`: each iteration overwrites `err` with its `Statinfo`
outcome; a failing `Statinfo` contributes `a[i].Name = name` over a
zero `FileInfo`; the value returned for `err` is the one left by the
last iteration.  `none` = a `Statinfo` panic. -/
def gdiLoop (srvS : String → Except CErr Resp) (dirp : String) :
    List String → Option CErr → Option (List FileInfo × Option CErr)
  | [], errAcc => some ([], errAcc)
  | name :: rest, _ =>
    match Statinfo srvS (dirp ++ name) with
    | .panicked => none
    | .err e =>
      match gdiLoop srvS dirp rest (some e) with
      | some (tl, fe) => some ({ FileInfo.zero with name := name } :: tl, fe)
      | none => none
    | .ok fp =>
      match gdiLoop srvS dirp rest none with
      | some (tl, fe) => some (fp :: tl, fe)
      | none => none

/-- The Go return value of `Getdirinfo`: a panic, or the `([]FileInfo,
error)` pair — both components, since the code can return a populated
array together with a non-nil error. -/
inductive GdiRes where
  | panicked
  | res (a : List FileInfo) (e : Option CErr)
  deriving DecidableEq, Repr

/-- `Conn.Getdirinfo dir rev off lim`: list the names via `Getdir`
(returning `(nil, err)` on its error), append `"/"` to a non-root dir,
then resolve each name via `Statinfo`, degrading failed entries to
name-only — but returning whatever error the final iteration left in
`err`. -/
def Getdirinfo (srvG : Nat → Except CErr Resp)
    (srvS : String → Except CErr Resp) (dir : String) (off : Nat)
    (lim : Int) (fuel : Nat) : Option GdiRes :=
  match Getdir srvG off lim fuel with
  | none => none
  | some .panicked => some .panicked
  | some (.err e) => some (.res [] (some e))
  | some (.ok names) =>
    let dirp := if dir ≠ "/" then dir ++ "/" else dir
    match gdiLoop srvS dirp names none with
    | none => some .panicked
    | some (a, e) => some (.res a e)

/-! ## Cluster resolver (`lookup`, `dialUri`) -/

/-- The `Get` loop at the end of `lookup`: for each child name, `Get`
the file `pre ++ name` (the reply's `Value` is the address string; `Get`
dereferences `*t.resp.Rev`, a panic if absent) and append it; the first
error aborts. -/
def lookupGets (srvGet : String → Except CErr Resp) (pre : String) :
    List String → List String → GoResult (List String)
  | [], acc => .ok acc
  | name :: rest, acc =>
    match srvGet (pre ++ name) with
    | .error e => .err e
    | .ok r =>
      match r.rev with
      | none => .panicked
      | some _ => lookupGets srvGet pre rest (acc ++ [r.value])

/-- `lookup b name`: take the bootstrap connection's revision, `Getdir`
the directory `/ctl/ns/<name>` reading to the end, turning a `*Error`
with `ErrNoEnt` into an empty result with no error, and read each
child's body as one address.  The bootstrap connection is abstracted by
the replies to the `REV` call, the per-offset `GETDIR` calls (as a
function of path and offset) and the `GET` calls. -/
def lookup (revR : Except CErr Int)
    (srvDir : String → Nat → Except CErr Resp)
    (srvGet : String → Except CErr Resp) (name : String) (fuel : Nat) :
    Option (GoResult (List String)) :=
  match revR with
  | .error e => some (.err e)
  | .ok _ =>
    match Getdir (srvDir ("/ctl/ns/" ++ name)) 0 (-1) fuel with
    | none => none
    | some .panicked => some .panicked
    | some (.err (.server .noent)) => some (.ok [])
    | some (.err e) => some (.err e)
    | some (.ok names) =>
      some (lookupGets srvGet ("/ctl/ns/" ++ name ++ "/") names [])

/-- The parsed connection query (`url.Values` restricted to the three
keys `conn.go` reads: `cn`, `ca`, `sk`; each maps to its list of
values when present). -/
structure UriQuery where
  cn : Option (List String)
  ca : Option (List String)
  sk : Option (List String)
  deriving DecidableEq, Repr

/-- The error values `dialUri` can return: `ErrInvalidUri`, a
`url.ParseQuery` failure, an error from the bootstrap lookup (or
propagated from the recursive bootstrap dial), a net dial failure, or a
rejected `Access`. -/
inductive DialErr where
  | invalidUri
  | parseErr
  | fromLookup (e : CErr)
  | netErr (code : Nat)
  | accessErr (code : Nat)
  deriving DecidableEq, Repr

/-- The result of `dialUri`: an established connection, an error, or a
runtime panic. -/
inductive DialRes where
  | conn
  | err (e : DialErr)
  | panicked
  deriving DecidableEq, Repr

/-- The tail of `dialUri` from the candidate-selection line on:
`dial(addrs[rand.Int()%len(addrs)], net_dial)` — with `len(addrs) = 0`
the modulo is an integer division by zero, a runtime panic — then, if a
secret key is present, `Access` with it (closing the new connection and
propagating the error on rejection). -/
def dialUriTail (p : UriQuery) (addrs : List String) (randv : Nat)
    (netDial : String → Option Nat) (accessRes : Option Nat) : DialRes :=
  if addrs.length = 0 then .panicked
  else
    match netDial (addrs.getD (randv % addrs.length) "") with
    | some code => .err (.netErr code)
    | none =>
      match p.sk with
      | some _ =>
        match accessRes with
        | some code => .err (.accessErr code)
        | none => .conn
      | none => .conn

/-- `dialUri uri buri net_dial`, embedded from the point the URI string
has been checked for the `doozer:?` marker (`hasScheme`) and handed to
`url.ParseQuery` (`parsed`; `none` = parse error — both externals).  With
a cluster name present and a non-empty `buri`, the bootstrap URI is
dialed recursively (its outcome is `bootRes`) and the candidate
addresses come from `lookup` against the bootstrap connection;
otherwise the explicit `ca` list is required.  Either way the flow then
reaches `dialUriTail`. -/
def dialUri (hasScheme : Bool) (parsed : Option UriQuery)
    (buriEmpty : Bool) (bootRes : DialRes) (bootRev : Except CErr Int)
    (bootDir : String → Nat → Except CErr Resp)
    (bootGet : String → Except CErr Resp) (fuel : Nat) (randv : Nat)
    (netDial : String → Option Nat) (accessRes : Option Nat) :
    Option DialRes :=
  if ¬ hasScheme then some (.err .invalidUri)
  else
    match parsed with
    | none => some (.err .parseErr)
    | some p =>
      match p.cn, buriEmpty with
      | some names, false =>
        match bootRes with
        | .panicked => some .panicked
        | .err e => some (.err e)
        | .conn =>
          match lookup bootRev bootDir bootGet (names.getD 0 "") fuel with
          | none => none
          | some .panicked => some .panicked
          | some (.err e) => some (.err (.fromLookup e))
          | some (.ok addrs) =>
            some (dialUriTail p addrs randv netDial accessRes)
      | _, _ =>
        match p.ca with
        | some addrs => some (dialUriTail p addrs randv netDial accessRes)
        | none => some (.err .invalidUri)

/-! ## Concrete runs used by the claim theorems -/

/-- The mux events leading to the tag-allocation counterexample: two
admitted submissions (tags 0 and 1), then the response for tag 0 frees
that tag while tag 1 stays outstanding. -/
def c1pre : List MEvent :=
  [MEvent.send 0 none none, MEvent.send 1 none none,
   MEvent.msg (Frame.tagged 0 emptyResp)]

/-- A directory server answering names `a` and `b` at offsets 0 and 1
and out-of-range beyond. -/
def srvGab : Nat → Except CErr Resp := fun o =>
  if o = 0 then .ok { emptyResp with path := some "a" }
  else if o = 1 then .ok { emptyResp with path := some "b" }
  else .error (.server .range)

/-- A stat server where only `/d/a` exists (the stat of the last listed
child fails). -/
def srvStatOnlyA : String → Except CErr Resp := fun p =>
  if p = "/d/a" then .ok { emptyResp with len := some 1, rev := some 5 }
  else .error (.server .noent)

/-- A stat server where only `/d/b` exists (the stat of a non-final
child fails). -/
def srvStatOnlyB : String → Except CErr Resp := fun p =>
  if p = "/d/b" then .ok { emptyResp with len := some 2, rev := some 6 }
  else .error (.server .noent)

/-- A two-entry directory server for the C6 witness. -/
def srvGw : Nat → Except CErr Resp := fun o =>
  if o = 0 then .ok { emptyResp with path := some "x" }
  else if o = 1 then .ok { emptyResp with path := some "y" }
  else .error (.server .range)

/-- A bootstrap directory server that reports `ErrNoEnt` for every
request: the `/ctl/ns/foo` directory is absent. -/
def bootDirAbsent : String → Nat → Except CErr Resp :=
  fun _ _ => .error (.server .noent)

/-- A bootstrap `GET` server (never consulted in the absent-directory
run). -/
def bootGetUnused : String → Except CErr Resp :=
  fun _ => .error (.local (.readErr 0))

/-! ## Tag-scan lemmas -/

theorem tDel_length {t : List (Nat × Option Nat)} {k : Nat}
    (h : tMem t k = true) : (tDel t k).length + 1 = t.length := by
  induction t with
  | nil => simp [tMem, tLookup] at h
  | cons p rest ih =>
    obtain ⟨k0, v0⟩ := p
    by_cases hk : k0 = k
    · simp [tDel, hk]
    · simp [tMem, tLookup, hk] at h
      simp [tDel, hk, ih h]

theorem tLookup_tDel_ne {t : List (Nat × Option Nat)} {k k0 : Nat}
    (h : k ≠ k0) : tLookup (tDel t k0) k = tLookup t k := by
  induction t with
  | nil => simp [tDel]
  | cons p rest ih =>
    obtain ⟨k1, v1⟩ := p
    by_cases h1 : k1 = k0
    · subst h1
      simp [tDel, tLookup, Ne.symm h]
    · by_cases h2 : k1 = k
      · subst h2
        simp [tDel, tLookup, h1]
      · simp [tDel, tLookup, h1, h2, ih]

theorem goLookup_tDel_ne {t : List (Nat × Option Nat)} {k k0 : Nat}
    (h : k ≠ k0) : goLookup (tDel t k0) k = goLookup t k := by
  simp [goLookup, tLookup_tDel_ne h]

/-- Among any `t.length + 1` consecutive tag values there is one whose
map read is `nil`: the basis for the scan's termination. -/
theorem exists_free_tag :
    ∀ (m : Nat) (t : List (Nat × Option Nat)), t.length ≤ m →
      ∀ n, ∃ j, j ≤ t.length ∧ goLookup t (n + j) = none := by
  intro m
  induction m with
  | zero =>
    intro t ht n
    have h0 : t = [] := List.eq_nil_of_length_eq_zero (Nat.le_zero.mp ht)
    exact ⟨0, by simp [h0], by simp [h0, goLookup, tLookup]⟩
  | succ m ih =>
    intro t ht n
    cases hl : goLookup t n with
    | none => exact ⟨0, Nat.zero_le _, by simpa using hl⟩
    | some id =>
      have hmem : tMem t n = true := by
        unfold goLookup at hl
        unfold tMem
        cases h : tLookup t n with
        | none => rw [h] at hl; simp at hl
        | some v => simp
      have hlen : (tDel t n).length + 1 = t.length := tDel_length hmem
      obtain ⟨j, hj, hfree⟩ := ih (tDel t n) (by omega) (n + 1)
      refine ⟨j + 1, by omega, ?_⟩
      have hne : n + 1 + j ≠ n := by omega
      have htr := @goLookup_tDel_ne t (n + 1 + j) n hne
      have harith : n + (j + 1) = n + 1 + j := by omega
      rw [harith, ← htr]
      exact hfree

/-- What the cursor scan computes when some free value exists in the
fuel window and the window does not wrap at `2^32`: the first tag at or
after the cursor whose read is `nil`. -/
theorem scanTag_spec (t : List (Nat × Option Nat)) :
    ∀ (fuel n : Nat), n + fuel ≤ W →
      (∃ j, j < fuel ∧ goLookup t (n + j) = none) →
      goLookup t (scanTag t n fuel) = none ∧ n ≤ scanTag t n fuel ∧
      scanTag t n fuel < n + fuel ∧
      (∀ k, n ≤ k → k < scanTag t n fuel → (goLookup t k).isSome = true) := by
  intro fuel
  induction fuel with
  | zero =>
    intro n _ hex
    obtain ⟨j, hj, _⟩ := hex
    omega
  | succ f ih =>
    intro n hW hex
    have hn : n < W := by omega
    have hmod : n % W = n := Nat.mod_eq_of_lt hn
    cases h : goLookup t n with
    | none =>
      have hscan : scanTag t n (f + 1) = n := by
        simp [scanTag, hmod, h]
      refine ⟨by rw [hscan]; exact h, by omega, by omega, ?_⟩
      intro k h1 h2
      rw [hscan] at h2
      omega
    | some id =>
      have hscan : scanTag t n (f + 1) = scanTag t (n + 1) f := by
        simp [scanTag, hmod, h]
      obtain ⟨j, hj, hfree⟩ := hex
      have hj0 : j ≠ 0 := by
        intro h0
        rw [h0] at hfree
        simp at hfree
        rw [hfree] at h
        exact Option.noConfusion h
      obtain ⟨j0, rfl⟩ : ∃ j0, j = j0 + 1 := ⟨j - 1, by omega⟩
      have hex' : ∃ j0, j0 < f ∧ goLookup t (n + 1 + j0) = none := by
        refine ⟨j0, by omega, ?_⟩
        have : n + 1 + j0 = n + (j0 + 1) := by omega
        rw [this]
        exact hfree
      obtain ⟨g1, g2, g3, g4⟩ := ih (n + 1) (by omega) hex'
      rw [hscan]
      refine ⟨g1, by omega, by omega, ?_⟩
      intro k hk1 hk2
      rcases Nat.eq_or_lt_of_le hk1 with heq | hlt
      · rw [← heq, h]; rfl
      · exact g4 k hlt hk2

/-! ## Frame codec lemmas -/

/-- Reassembling the four emitted bytes recovers the length modulo
`2^32`. -/
theorem beVal_be32 (n : Nat) :
    beVal (n / 2 ^ 24 % 256) (n / 2 ^ 16 % 256) (n / 2 ^ 8 % 256) (n % 256) =
      n % 2 ^ 32 := by
  simp only [beVal]
  omega

/-- The bits of `12 = set ||| del`. -/
theorem testBit_twelve : ∀ i, Nat.testBit 12 i = true → i = 2 ∨ i = 3 := by
  intro i h
  by_cases h4 : i < 4
  · interval_cases i
    · exact absurd h (by decide)
    · exact absurd h (by decide)
    · exact Or.inl rfl
    · exact Or.inr rfl
  · exfalso
    have hlt : (12 : Nat) < 2 ^ i := by
      calc (12 : Nat) < 16 := by norm_num
        _ = 2 ^ 4 := by norm_num
        _ ≤ 2 ^ i := Nat.pow_le_pow_right (by norm_num) (by omega)
    rw [Nat.testBit_eq_false_of_lt hlt] at h
    simp at h

/-! ## Pagination lemmas (`getdirLoop`) -/

theorem getdirLoop_range (srv : Nat → Except CErr Resp) :
    ∀ (N off : Nat) (lim : Int) (acc : List String) (fuel : Nat)
      (rs : Nat → Resp) (names : Nat → String),
      (∀ k, k < N → srv ((off + k) % W) = Except.ok (rs k)) →
      (∀ k, k < N → (rs k).path = some (names k)) →
      srv ((off + N) % W) = Except.error (CErr.server SErr.range) →
      (∀ k : Nat, k ≤ N → lim - (k : Int) ≠ 0) →
      N + 1 ≤ fuel →
      getdirLoop srv off lim acc fuel =
        some (GoResult.ok (acc ++ (List.range N).map names)) := by
  intro N
  induction N with
  | zero =>
    intro off lim acc fuel rs names _ _ hrange hlim hfuel
    obtain ⟨f, rfl⟩ : ∃ f, fuel = f + 1 := ⟨fuel - 1, by omega⟩
    have hl0 : lim ≠ 0 := by
      have := hlim 0 (Nat.le_refl 0)
      simpa using this
    rw [show (off + 0) % W = off % W from by simp] at hrange
    simp [getdirLoop, if_neg hl0, hrange]
  | succ N ih =>
    intro off lim acc fuel rs names hok hpath hrange hlim hfuel
    obtain ⟨f, rfl⟩ : ∃ f, fuel = f + 1 := ⟨fuel - 1, by omega⟩
    have hl0 : lim ≠ 0 := by
      have := hlim 0 (by omega)
      simpa using this
    have hok0 : srv (off % W) = Except.ok (rs 0) := by
      have := hok 0 (by omega)
      simpa using this
    have hp0 : (rs 0).path = some (names 0) := hpath 0 (by omega)
    have hok' : ∀ k, k < N →
        srv ((off + 1 + k) % W) = Except.ok (rs (k + 1)) := by
      intro k hk
      have := hok (k + 1) (by omega)
      rwa [show off + (k + 1) = off + 1 + k from by omega] at this
    have hpath' : ∀ k, k < N → (rs (k + 1)).path = some (names (k + 1)) :=
      fun k hk => hpath (k + 1) (by omega)
    have hrange' : srv ((off + 1 + N) % W) =
        Except.error (CErr.server SErr.range) := by
      rwa [show off + (N + 1) = off + 1 + N from by omega] at hrange
    have hlim' : ∀ k : Nat, k ≤ N → (lim - 1) - (k : Int) ≠ 0 := by
      intro k hk hc
      apply hlim (k + 1) (by omega)
      push_cast at hc ⊢
      omega
    have hrec := ih (off + 1) (lim - 1) (acc ++ [names 0]) f
      (fun k => rs (k + 1)) (fun k => names (k + 1))
      hok' hpath' hrange' hlim' (by omega)
    have hmap : (List.range (N + 1)).map names =
        names 0 :: (List.range N).map (fun k => names (k + 1)) := by
      rw [List.range_succ_eq_map, List.map_cons, List.map_map]
      rfl
    simp only [getdirLoop, if_neg hl0, hok0, hp0, hrec, hmap]
    simp

theorem getdirLoop_length_le (srv : Nat → Except CErr Resp) :
    ∀ (fuel off : Nat) (lim : Int) (acc l : List String),
      0 ≤ lim → getdirLoop srv off lim acc fuel = some (GoResult.ok l) →
      l.length ≤ acc.length + lim.toNat := by
  intro fuel
  induction fuel with
  | zero =>
    intro off lim acc l _ h
    simp [getdirLoop] at h
  | succ f ih =>
    intro off lim acc l h0 h
    by_cases hl : lim = 0
    · rw [hl] at h
      simp [getdirLoop] at h
      subst h
      simp
    · cases hsrv : srv (off % W) with
      | error e =>
        rcases e with me | se
        · simp [getdirLoop, hl, hsrv] at h
        · rcases se with _ | _ | n
          · simp [getdirLoop, hl, hsrv] at h
            subst h
            exact Nat.le_add_right _ _
          · simp [getdirLoop, hl, hsrv] at h
          · simp [getdirLoop, hl, hsrv] at h
      | ok r =>
        cases hp : r.path with
        | none => simp [getdirLoop, hl, hsrv, hp] at h
        | some p =>
          simp only [getdirLoop, if_neg hl, hsrv, hp] at h
          have hrec := ih (off + 1) (lim - 1) (acc ++ [p]) l (by omega) h
          simp at hrec
          omega

theorem getdirLoop_term (srv : Nat → Except CErr Resp) :
    ∀ (fuel off : Nat) (lim : Int) (acc : List String),
      0 ≤ lim → lim.toNat + 1 ≤ fuel →
      getdirLoop srv off lim acc fuel ≠ none := by
  intro fuel
  induction fuel with
  | zero =>
    intro off lim acc _ hf
    omega
  | succ f ih =>
    intro off lim acc h0 hf
    by_cases hl : lim = 0
    · simp [getdirLoop, hl]
    · cases hsrv : srv (off % W) with
      | error e =>
        rcases e with me | se
        · simp [getdirLoop, hl, hsrv]
        · rcases se with _ | _ | n <;> simp [getdirLoop, hl, hsrv]
      | ok r =>
        cases hp : r.path with
        | none => simp [getdirLoop, hl, hsrv, hp]
        | some p =>
          simp only [getdirLoop, if_neg hl, hsrv, hp]
          exact ih (off + 1) (lim - 1) (acc ++ [p]) (by omega) (by omega)

theorem getdirLoop_no_range (srv : Nat → Except CErr Resp) :
    ∀ (fuel off : Nat) (lim : Int) (acc : List String),
      getdirLoop srv off lim acc fuel ≠
        some (GoResult.err (CErr.server SErr.range)) := by
  intro fuel
  induction fuel with
  | zero =>
    intro off lim acc h
    simp [getdirLoop] at h
  | succ f ih =>
    intro off lim acc h
    by_cases hl : lim = 0
    · rw [hl] at h
      simp [getdirLoop] at h
    · cases hsrv : srv (off % W) with
      | error e =>
        rcases e with me | se
        · simp [getdirLoop, hl, hsrv] at h
        · rcases se with _ | _ | n <;> simp [getdirLoop, hl, hsrv] at h
      | ok r =>
        cases hp : r.path with
        | none => simp [getdirLoop, hl, hsrv, hp] at h
        | some p =>
          simp only [getdirLoop, if_neg hl, hsrv, hp] at h
          exact ih (off + 1) (lim - 1) (acc ++ [p]) h

theorem getdirLoop_err_first (srv : Nat → Except CErr Resp)
    (off : Nat) (lim : Int) (acc : List String) (fuel : Nat) (e : CErr)
    (hl : lim ≠ 0) (hf : 1 ≤ fuel)
    (hsrv : srv (off % W) = Except.error e)
    (hne : e ≠ CErr.server SErr.range) :
    getdirLoop srv off lim acc fuel = some (GoResult.err e) := by
  obtain ⟨f, rfl⟩ : ∃ f, fuel = f + 1 := ⟨fuel - 1, by omega⟩
  rcases e with me | se
  · simp [getdirLoop, hl, hsrv]
  · rcases se with _ | _ | n
    · exact absurd rfl hne
    · simp [getdirLoop, hl, hsrv]
    · simp [getdirLoop, hl, hsrv]

/-! ## Pagination lemmas (`walkLoop`) -/

theorem walkLoop_range (srv : Nat → Except CErr Resp) :
    ∀ (N off : Nat) (lim : Int) (acc : List Event) (fuel : Nat)
      (rs : Nat → Resp) (revs : Nat → Int) (paths : Nat → String)
      (fls : Nat → Nat),
      (∀ k, k < N → srv ((off + k) % W) = Except.ok (rs k)) →
      (∀ k, k < N → (rs k).rev = some (revs k)) →
      (∀ k, k < N → (rs k).path = some (paths k)) →
      (∀ k, k < N → (rs k).flags = some (fls k)) →
      srv ((off + N) % W) = Except.error (CErr.server SErr.range) →
      (∀ k : Nat, k ≤ N → lim - (k : Int) ≠ 0) →
      N + 1 ≤ fuel →
      walkLoop srv off lim acc fuel =
        some (GoResult.ok (acc ++ (List.range N).map
          (fun k => ⟨revs k, paths k, (rs k).value, fls k⟩))) := by
  intro N
  induction N with
  | zero =>
    intro off lim acc fuel rs revs paths fls _ _ _ _ hrange hlim hfuel
    obtain ⟨f, rfl⟩ : ∃ f, fuel = f + 1 := ⟨fuel - 1, by omega⟩
    have hl0 : lim ≠ 0 := by
      have := hlim 0 (Nat.le_refl 0)
      simpa using this
    rw [show (off + 0) % W = off % W from by simp] at hrange
    simp [walkLoop, if_neg hl0, hrange]
  | succ N ih =>
    intro off lim acc fuel rs revs paths fls hok hrev hpath hfl hrange hlim hfuel
    obtain ⟨f, rfl⟩ : ∃ f, fuel = f + 1 := ⟨fuel - 1, by omega⟩
    have hl0 : lim ≠ 0 := by
      have := hlim 0 (by omega)
      simpa using this
    have hok0 : srv (off % W) = Except.ok (rs 0) := by
      have := hok 0 (by omega)
      simpa using this
    have hr0 : (rs 0).rev = some (revs 0) := hrev 0 (by omega)
    have hp0 : (rs 0).path = some (paths 0) := hpath 0 (by omega)
    have hf0 : (rs 0).flags = some (fls 0) := hfl 0 (by omega)
    have hok' : ∀ k, k < N →
        srv ((off + 1 + k) % W) = Except.ok (rs (k + 1)) := by
      intro k hk
      have := hok (k + 1) (by omega)
      rwa [show off + (k + 1) = off + 1 + k from by omega] at this
    have hrange' : srv ((off + 1 + N) % W) =
        Except.error (CErr.server SErr.range) := by
      rwa [show off + (N + 1) = off + 1 + N from by omega] at hrange
    have hlim' : ∀ k : Nat, k ≤ N → (lim - 1) - (k : Int) ≠ 0 := by
      intro k hk hc
      apply hlim (k + 1) (by omega)
      push_cast at hc ⊢
      omega
    have hrec := ih (off + 1) (lim - 1)
      (acc ++ [⟨revs 0, paths 0, (rs 0).value, fls 0⟩]) f
      (fun k => rs (k + 1)) (fun k => revs (k + 1)) (fun k => paths (k + 1))
      (fun k => fls (k + 1))
      hok' (fun k hk => hrev (k + 1) (by omega))
      (fun k hk => hpath (k + 1) (by omega))
      (fun k hk => hfl (k + 1) (by omega)) hrange' hlim' (by omega)
    have hmap : (List.range (N + 1)).map
        (fun k => (⟨revs k, paths k, (rs k).value, fls k⟩ : Event)) =
        (⟨revs 0, paths 0, (rs 0).value, fls 0⟩ : Event) ::
          (List.range N).map
            (fun k => ⟨revs (k + 1), paths (k + 1), (rs (k + 1)).value,
              fls (k + 1)⟩) := by
      rw [List.range_succ_eq_map, List.map_cons, List.map_map]
      rfl
    simp only [walkLoop, if_neg hl0, hok0, hr0, hp0, hf0, hrec, hmap]
    simp

theorem walkLoop_length_le (srv : Nat → Except CErr Resp) :
    ∀ (fuel off : Nat) (lim : Int) (acc l : List Event),
      0 ≤ lim → walkLoop srv off lim acc fuel = some (GoResult.ok l) →
      l.length ≤ acc.length + lim.toNat := by
  intro fuel
  induction fuel with
  | zero =>
    intro off lim acc l _ h
    simp [walkLoop] at h
  | succ f ih =>
    intro off lim acc l h0 h
    by_cases hl : lim = 0
    · rw [hl] at h
      simp [walkLoop] at h
      subst h
      simp
    · cases hsrv : srv (off % W) with
      | error e =>
        rcases e with me | se
        · simp [walkLoop, hl, hsrv] at h
        · rcases se with _ | _ | n
          · simp [walkLoop, hl, hsrv] at h
            subst h
            exact Nat.le_add_right _ _
          · simp [walkLoop, hl, hsrv] at h
          · simp [walkLoop, hl, hsrv] at h
      | ok r =>
        cases hrv : r.rev with
        | none => simp [walkLoop, hl, hsrv, hrv] at h
        | some rv =>
          cases hp : r.path with
          | none => simp [walkLoop, hl, hsrv, hrv, hp] at h
          | some p =>
            cases hfl : r.flags with
            | none => simp [walkLoop, hl, hsrv, hrv, hp, hfl] at h
            | some fl =>
              simp only [walkLoop, if_neg hl, hsrv, hrv, hp, hfl] at h
              have hrec := ih (off + 1) (lim - 1)
                (acc ++ [⟨rv, p, r.value, fl⟩]) l (by omega) h
              simp at hrec
              omega

theorem walkLoop_term (srv : Nat → Except CErr Resp) :
    ∀ (fuel off : Nat) (lim : Int) (acc : List Event),
      0 ≤ lim → lim.toNat + 1 ≤ fuel →
      walkLoop srv off lim acc fuel ≠ none := by
  intro fuel
  induction fuel with
  | zero =>
    intro off lim acc _ hf
    omega
  | succ f ih =>
    intro off lim acc h0 hf
    by_cases hl : lim = 0
    · simp [walkLoop, hl]
    · cases hsrv : srv (off % W) with
      | error e =>
        rcases e with me | se
        · simp [walkLoop, hl, hsrv]
        · rcases se with _ | _ | n <;> simp [walkLoop, hl, hsrv]
      | ok r =>
        cases hrv : r.rev with
        | none => simp [walkLoop, hl, hsrv, hrv]
        | some rv =>
          cases hp : r.path with
          | none => simp [walkLoop, hl, hsrv, hrv, hp]
          | some p =>
            cases hfl : r.flags with
            | none => simp [walkLoop, hl, hsrv, hrv, hp, hfl]
            | some fl =>
              simp only [walkLoop, if_neg hl, hsrv, hrv, hp, hfl]
              exact ih (off + 1) (lim - 1) (acc ++ [⟨rv, p, r.value, fl⟩])
                (by omega) (by omega)

theorem walkLoop_no_range (srv : Nat → Except CErr Resp) :
    ∀ (fuel off : Nat) (lim : Int) (acc : List Event),
      walkLoop srv off lim acc fuel ≠
        some (GoResult.err (CErr.server SErr.range)) := by
  intro fuel
  induction fuel with
  | zero =>
    intro off lim acc h
    simp [walkLoop] at h
  | succ f ih =>
    intro off lim acc h
    by_cases hl : lim = 0
    · rw [hl] at h
      simp [walkLoop] at h
    · cases hsrv : srv (off % W) with
      | error e =>
        rcases e with me | se
        · simp [walkLoop, hl, hsrv] at h
        · rcases se with _ | _ | n <;> simp [walkLoop, hl, hsrv] at h
      | ok r =>
        cases hrv : r.rev with
        | none => simp [walkLoop, hl, hsrv, hrv] at h
        | some rv =>
          cases hp : r.path with
          | none => simp [walkLoop, hl, hsrv, hrv, hp] at h
          | some p =>
            cases hfl : r.flags with
            | none => simp [walkLoop, hl, hsrv, hrv, hp, hfl] at h
            | some fl =>
              simp only [walkLoop, if_neg hl, hsrv, hrv, hp, hfl] at h
              exact ih (off + 1) (lim - 1) (acc ++ [⟨rv, p, r.value, fl⟩]) h

theorem walkLoop_err_first (srv : Nat → Except CErr Resp)
    (off : Nat) (lim : Int) (acc : List Event) (fuel : Nat) (e : CErr)
    (hl : lim ≠ 0) (hf : 1 ≤ fuel)
    (hsrv : srv (off % W) = Except.error e)
    (hne : e ≠ CErr.server SErr.range) :
    walkLoop srv off lim acc fuel = some (GoResult.err e) := by
  obtain ⟨f, rfl⟩ : ∃ f, fuel = f + 1 := ⟨fuel - 1, by omega⟩
  rcases e with me | se
  · simp [walkLoop, hl, hsrv]
  · rcases se with _ | _ | n
    · exact absurd rfl hne
    · simp [walkLoop, hl, hsrv]
    · simp [walkLoop, hl, hsrv]

/-! ## Claim theorems -/

/-- C1 counterexample: the multiplexer does not assign the lowest tag
value absent from the tag table.  After submissions at tags 0 and 1 and
the completion of tag 0, tag 0 is no longer present in the table, yet
the next submission is stamped with tag 2 (the scan starts at the
persistent cursor, here 1, not at the lowest free value 0). -/
theorem mux_not_lowest_tag_counterexample :
    tMem (muxRun c1pre).txns 0 = false ∧
    (muxRun (c1pre ++ [MEvent.send 2 none none])).assigned =
      [(0, 0), (1, 1), (2, 2)] := by decide

/-- C1 amended: a submission is not stamped with the lowest free tag but
with the first tag at or after the multiplexer's persistent cursor whose
table read is `nil`; the cursor (the previously assigned tag, initially
0) then moves to the assigned tag.  A tag freed below the cursor is
skipped.  Stated for any live mux state whose scan window does not wrap
at `2^32`. -/
theorem mux_send_assigns_first_free_at_or_after_cursor
    (s : MuxState) (id : Nat) (enc wr : Option MErr) (tg : Nat)
    (hex : s.exited = false)
    (hnw : s.n + s.txns.length + 1 ≤ W)
    (htg : tg = scanTag s.txns s.n (s.txns.length + 1)) :
    goLookup s.txns tg = none ∧
    s.n ≤ tg ∧ tg < s.n + s.txns.length + 1 ∧
    (∀ k, s.n ≤ k → k < tg → (goLookup s.txns k).isSome = true) ∧
    (muxStep s (MEvent.send id enc wr)).assigned = s.assigned ++ [(id, tg)] ∧
    (muxStep s (MEvent.send id enc wr)).n = tg := by
  obtain ⟨j, hj, hfree⟩ :=
    exists_free_tag s.txns.length s.txns (Nat.le_refl _) s.n
  have hex2 : ∃ j, j < s.txns.length + 1 ∧ goLookup s.txns (s.n + j) = none :=
    ⟨j, by omega, hfree⟩
  obtain ⟨g1, g2, g3, g4⟩ := scanTag_spec s.txns (s.txns.length + 1) s.n hnw hex2
  subst htg
  have hstep :
      (muxStep s (MEvent.send id enc wr)).assigned =
          s.assigned ++ [(id, scanTag s.txns s.n (s.txns.length + 1))] ∧
      (muxStep s (MEvent.send id enc wr)).n =
          scanTag s.txns s.n (s.txns.length + 1) := by
    cases enc <;> cases wr <;>
      · simp only [muxStep, hex, Bool.false_eq_true, if_false, terminateM]
        constructor <;> (try split) <;> trivial
  exact ⟨g1, g2, g3, g4, hstep.1, hstep.2⟩

/-- C1 witness: in the state reached by `c1pre` (cursor 1, tag 1 live,
tag 0 freed), the next submission is stamped with tag 2 — the first
free tag at or after the cursor. -/
theorem mux_send_assigns_first_free_witness :
    (muxStep (muxRun c1pre) (MEvent.send 2 none none)).assigned =
      (muxRun c1pre).assigned ++ [(2, 2)] :=
  (mux_send_assigns_first_free_at_or_after_cursor (muxRun c1pre) 2 none none 2
    (by decide) (by decide) (by decide)).2.2.2.2.1

/-- C2 (code bug): a submission whose `proto.Marshal` fails leaves the
key mapped to `nil` in the table (`txns[n] = nil`); when the connection
then enters the terminal state (here via `Close`), the broadcast loop
`for _, t := range txns { t.err = err ... }` dereferences that nil
pointer: the error is recorded on the handle, but the goroutine panics
before failing-and-completing the table's transactions, before closing
the stream, and before closing `c.stopped` — so no future call can
observe the recorded error. -/
theorem mux_terminal_broadcast_panics_on_nil_entry :
    (muxRun [MEvent.send 0 (some (MErr.encodeErr 7)) none, MEvent.stop]).cErr
        = some MErr.errClosed ∧
    (muxRun [MEvent.send 0 (some (MErr.encodeErr 7)) none, MEvent.stop]).panicked
        = true ∧
    (muxRun [MEvent.send 0 (some (MErr.encodeErr 7)) none, MEvent.stop]).stoppedClosed
        = false ∧
    (muxRun [MEvent.send 0 (some (MErr.encodeErr 7)) none, MEvent.stop]).connClosed
        = false := by decide

/-- C3 (code bug): when encoding fails the transaction is indeed failed
immediately and only locally — the caller is unblocked with the encode
error, no connection error is recorded, and the mux keeps running — but
the table entry is not removed: `txns[n] = nil` keeps the key present
(mapped to `nil`, so the tag is reconsidered free by the allocator),
whereas the claim and the spec say the entry is removed and every tag
present refers to a not-yet-completed transaction. -/
theorem mux_encode_failure_leaves_nil_entry :
    (muxRun [MEvent.send 0 (some (MErr.encodeErr 7)) none]).outcomes
        = [(0, TxnRes.localErr (MErr.encodeErr 7))] ∧
    (muxRun [MEvent.send 0 (some (MErr.encodeErr 7)) none]).cErr = none ∧
    (muxRun [MEvent.send 0 (some (MErr.encodeErr 7)) none]).exited = false ∧
    goLookup (muxRun [MEvent.send 0 (some (MErr.encodeErr 7)) none]).txns 0
        = none ∧
    tMem (muxRun [MEvent.send 0 (some (MErr.encodeErr 7)) none]).txns 0
        = true := by decide

/-- C4 (code bug): with a cluster name and a bootstrap URI whose
`/ctl/ns/foo` directory is absent, `lookup` does produce an empty
candidate set with no error — but `dialUri` then evaluates
`addrs[rand.Int()%len(addrs)]` on that empty list, an integer division
by zero that panics, contradicting the claim that the selection step is
only ever evaluated on a non-empty address list. -/
theorem dialUri_empty_cluster_panics :
    lookup (.ok 7) bootDirAbsent bootGetUnused "foo" 3
        = some (.ok []) ∧
    dialUri true (some ⟨some ["foo"], none, none⟩) false .conn (.ok 7)
        bootDirAbsent bootGetUnused 3 0 (fun _ => none) none
        = some .panicked := by decide

/-- C5 (code bug): `Getdirinfo` degrades a child whose stat fails to a
name-only entry, but the named return `err` keeps the error of the
*last* iteration: when the failing child is the final one, the listing
is returned together with that error (first conjunct), while the same
failure at a non-final position is overwritten and the listing ends
with no error (second conjunct) — contradicting the claim that the
listing succeeds with no error regardless of the failing position. -/
theorem getdirinfo_last_stat_failure_returns_error :
    Getdirinfo srvGab srvStatOnlyA "/d" 0 (-1) 5 =
      some (.res [⟨"a", 1, 5, true, false⟩, { FileInfo.zero with name := "b" }]
        (some (.server .noent))) ∧
    Getdirinfo srvGab srvStatOnlyB "/d" 0 (-1) 5 =
      some (.res [{ FileInfo.zero with name := "a" }, ⟨"b", 2, 6, true, false⟩]
        none) := by decide

/-- C6: pagination of `Getdir` and `Walk`.  (1)/(2): with `lim = -1`
against a server that answers entries at offsets `off..off+N-1` and
signals out-of-range at `off+N`, the loop terminates (a result at every
fuel beyond `N`) and returns exactly those `N` entries with no error;
(3)/(4): with `lim ≥ 0` at most `lim` entries are returned; (5)/(6):
with `lim ≥ 0` the loop also terminates within `lim + 1` iterations;
(7)/(8): an out-of-range error is never surfaced to the caller; (9)/(10):
any other error aborts the iteration and is returned. -/
theorem getdir_walk_pagination_spec :
    (∀ (srv : Nat → Except CErr Resp) (rs : Nat → Resp)
        (names : Nat → String) (N off fuel : Nat),
        (∀ k, k < N → srv ((off + k) % W) = Except.ok (rs k)) →
        (∀ k, k < N → (rs k).path = some (names k)) →
        srv ((off + N) % W) = Except.error (CErr.server SErr.range) →
        N + 1 ≤ fuel →
        Getdir srv off (-1) fuel =
          some (GoResult.ok ((List.range N).map names))) ∧
    (∀ (srv : Nat → Except CErr Resp) (rs : Nat → Resp) (revs : Nat → Int)
        (paths : Nat → String) (fls : Nat → Nat) (N off fuel : Nat),
        (∀ k, k < N → srv ((off + k) % W) = Except.ok (rs k)) →
        (∀ k, k < N → (rs k).rev = some (revs k)) →
        (∀ k, k < N → (rs k).path = some (paths k)) →
        (∀ k, k < N → (rs k).flags = some (fls k)) →
        srv ((off + N) % W) = Except.error (CErr.server SErr.range) →
        N + 1 ≤ fuel →
        Walk srv off (-1) fuel =
          some (GoResult.ok ((List.range N).map
            (fun k => ⟨revs k, paths k, (rs k).value, fls k⟩)))) ∧
    (∀ (srv : Nat → Except CErr Resp) (off : Nat) (lim : Int) (fuel : Nat)
        (l : List String), 0 ≤ lim →
        Getdir srv off lim fuel = some (GoResult.ok l) →
        l.length ≤ lim.toNat) ∧
    (∀ (srv : Nat → Except CErr Resp) (off : Nat) (lim : Int) (fuel : Nat)
        (l : List Event), 0 ≤ lim →
        Walk srv off lim fuel = some (GoResult.ok l) →
        l.length ≤ lim.toNat) ∧
    (∀ (srv : Nat → Except CErr Resp) (off : Nat) (lim : Int) (fuel : Nat),
        0 ≤ lim → lim.toNat + 1 ≤ fuel → Getdir srv off lim fuel ≠ none) ∧
    (∀ (srv : Nat → Except CErr Resp) (off : Nat) (lim : Int) (fuel : Nat),
        0 ≤ lim → lim.toNat + 1 ≤ fuel → Walk srv off lim fuel ≠ none) ∧
    (∀ (srv : Nat → Except CErr Resp) (off : Nat) (lim : Int) (fuel : Nat),
        Getdir srv off lim fuel ≠
          some (GoResult.err (CErr.server SErr.range))) ∧
    (∀ (srv : Nat → Except CErr Resp) (off : Nat) (lim : Int) (fuel : Nat),
        Walk srv off lim fuel ≠
          some (GoResult.err (CErr.server SErr.range))) ∧
    (∀ (srv : Nat → Except CErr Resp) (off : Nat) (lim : Int) (fuel : Nat)
        (e : CErr), lim ≠ 0 → 1 ≤ fuel →
        srv (off % W) = Except.error e → e ≠ CErr.server SErr.range →
        Getdir srv off lim fuel = some (GoResult.err e)) ∧
    (∀ (srv : Nat → Except CErr Resp) (off : Nat) (lim : Int) (fuel : Nat)
        (e : CErr), lim ≠ 0 → 1 ≤ fuel →
        srv (off % W) = Except.error e → e ≠ CErr.server SErr.range →
        Walk srv off lim fuel = some (GoResult.err e)) := by
  have hlimNeg : ∀ (N : Nat) (k : Nat), k ≤ N → (-1 : Int) - (k : Int) ≠ 0 := by
    intro N k _ hc
    omega
  refine ⟨?_, ?_, ?_, ?_, ?_, ?_, ?_, ?_, ?_, ?_⟩
  · intro srv rs names N off fuel hok hpath hrange hfuel
    simpa using getdirLoop_range srv N off (-1) [] fuel rs names hok hpath
      hrange (hlimNeg N) hfuel
  · intro srv rs revs paths fls N off fuel hok hrev hpath hfl hrange hfuel
    simpa using walkLoop_range srv N off (-1) [] fuel rs revs paths fls hok
      hrev hpath hfl hrange (hlimNeg N) hfuel
  · intro srv off lim fuel l h0 h
    simpa using getdirLoop_length_le srv fuel off lim [] l h0 h
  · intro srv off lim fuel l h0 h
    simpa using walkLoop_length_le srv fuel off lim [] l h0 h
  · intro srv off lim fuel h0 hf
    exact getdirLoop_term srv fuel off lim [] h0 hf
  · intro srv off lim fuel h0 hf
    exact walkLoop_term srv fuel off lim [] h0 hf
  · intro srv off lim fuel
    exact getdirLoop_no_range srv fuel off lim []
  · intro srv off lim fuel
    exact walkLoop_no_range srv fuel off lim []
  · intro srv off lim fuel e hl hf hsrv hne
    exact getdirLoop_err_first srv off lim [] fuel e hl hf hsrv hne
  · intro srv off lim fuel e hl hf hsrv hne
    exact walkLoop_err_first srv off lim [] fuel e hl hf hsrv hne

/-- C6 witness: against `srvGw` (two entries, out-of-range at offset 2),
`Getdir` with `lim = -1` terminates with exactly the two names and no
error. -/
theorem getdir_walk_pagination_witness :
    Getdir srvGw 0 (-1) 3 = some (GoResult.ok ["x", "y"]) :=
  (getdir_walk_pagination_spec.1 srvGw
    (fun k => if k = 0 then { emptyResp with path := some "x" }
      else { emptyResp with path := some "y" })
    (fun k => if k = 0 then "x" else "y") 2 0 3
    (by decide) (by decide) (by decide) (by omega)).trans (by decide)

/-- C7: the `call` contract.  (1) When `c.stopped` fires before
submission, the recorded terminal error is returned and the transaction
never reaches the multiplexer (the submitted flag is `false`) — stated
against any mux run that closed `c.stopped`; (2)/(3) on completion with a
locally recorded error (encode failure or terminal broadcast) that error
is returned; (4) otherwise a response carrying a non-nil error code is
turned into a structured error; (5) otherwise the call succeeds with the
raw response available for field extraction. -/
theorem call_dispatch_spec :
    (∀ evs : List MEvent, (muxRun evs).stoppedClosed = true →
        call (muxRun evs).cErr CallEvent.stoppedFirst =
          (false, CallResult.terminal (muxRun evs).cErr)) ∧
    (∀ (cErr : Option MErr) (e : MErr),
        call cErr (CallEvent.admitted (TxnRes.localErr e)) =
          (true, CallResult.txnErr e)) ∧
    (∀ (cErr : Option MErr) (e : MErr),
        call cErr (CallEvent.admitted (TxnRes.failed e)) =
          (true, CallResult.txnErr e)) ∧
    (∀ (cErr : Option MErr) (r : Resp) (code : Nat),
        r.errCode = some code →
        call cErr (CallEvent.admitted (TxnRes.resp r)) =
          (true, CallResult.serverErr code r)) ∧
    (∀ (cErr : Option MErr) (r : Resp),
        r.errCode = none →
        call cErr (CallEvent.admitted (TxnRes.resp r)) =
          (true, CallResult.ok r)) := by
  refine ⟨?_, ?_, ?_, ?_, ?_⟩
  · intro evs _
    rfl
  · intro cErr e
    rfl
  · intro cErr e
    rfl
  · intro cErr r code hc
    simp [call, hc]
  · intro cErr r hc
    simp [call, hc]

/-- C7 witness: a completed transaction whose response carries no error
code yields success with the raw response. -/
theorem call_dispatch_witness :
    call none (CallEvent.admitted (TxnRes.resp emptyResp)) =
      (true, CallResult.ok emptyResp) :=
  call_dispatch_spec.2.2.2.2 none emptyResp rfl

/-- C8: `Close` is a total function returning no error (it never
blocks: the send on the capacity-one `c.stop` channel has a `default`
arm), any number of `Close` calls leave exactly one pending stop signal,
and a mux run executes its terminal transition at most once — exactly
once when a stop request reaches it — so the terminal-error broadcast
happens once per connection no matter how many times `Close` is
called. -/
theorem close_idempotent_single_broadcast :
    (∀ b, closeSignal b = true) ∧
    (∀ (n : Nat) (b : Bool), 1 ≤ n → closeIter n b = true) ∧
    (∀ evs : List MEvent, (muxRun evs).termCount ≤ 1) ∧
    (∀ evs : List MEvent,
        (muxRun (evs ++ [MEvent.stop])).termCount = 1) := by
  have hiter : ∀ (n : Nat), closeIter n true = true := by
    intro n
    induction n with
    | zero => rfl
    | succ m ih => simpa [closeIter, closeSignal] using ih
  have hstep : ∀ (s : MuxState) (e : MEvent),
      ((s.exited = false ∧ s.termCount = 0) ∨
        (s.exited = true ∧ s.termCount = 1)) →
      (((muxStep s e).exited = false ∧ (muxStep s e).termCount = 0) ∨
        ((muxStep s e).exited = true ∧ (muxStep s e).termCount = 1)) := by
    intro s e hinv
    rcases hinv with ⟨hx, hc⟩ | ⟨hx, hc⟩
    · cases e with
      | send id enc wr =>
        cases enc with
        | some ee => left; simp [muxStep, hx, hc]
        | none =>
          cases wr with
          | some we =>
            right
            simp only [muxStep, hx, Bool.false_eq_true, if_false, terminateM]
            split <;> simp [hc]
          | none => left; simp [muxStep, hx, hc]
      | msg f =>
        cases f with
        | decodeFail => left; simp [muxStep, hx, hc]
        | noTag => left; simp [muxStep, hx, hc]
        | tagged tag r =>
          cases hlk : goLookup s.txns tag with
          | none => left; simp [muxStep, hx, hc, hlk]
          | some id => left; simp [muxStep, hx, hc, hlk]
      | readFail e0 =>
        right
        simp only [muxStep, hx, Bool.false_eq_true, if_false, terminateM]
        split <;> simp [hc]
      | stop =>
        right
        simp only [muxStep, hx, Bool.false_eq_true, if_false, terminateM]
        split <;> simp [hc]
    · have hid : muxStep s e = s := by
        simp [muxStep, hx]
      rw [hid]
      right
      exact ⟨hx, hc⟩
  have hrun : ∀ (evs : List MEvent) (s : MuxState),
      ((s.exited = false ∧ s.termCount = 0) ∨
        (s.exited = true ∧ s.termCount = 1)) →
      (((evs.foldl muxStep s).exited = false ∧
          (evs.foldl muxStep s).termCount = 0) ∨
        ((evs.foldl muxStep s).exited = true ∧
          (evs.foldl muxStep s).termCount = 1)) := by
    intro evs
    induction evs with
    | nil => intro s h; exact h
    | cons e rest ih =>
      intro s h
      exact ih (muxStep s e) (hstep s e h)
  have hinv0 : ((muxInit.exited = false ∧ muxInit.termCount = 0) ∨
      (muxInit.exited = true ∧ muxInit.termCount = 1)) := by
    left
    exact ⟨rfl, rfl⟩
  refine ⟨fun b => rfl, ?_, ?_, ?_⟩
  · intro n b hn
    obtain ⟨m, rfl⟩ : ∃ m, n = m + 1 := ⟨n - 1, by omega⟩
    simpa [closeIter, closeSignal] using hiter m
  · intro evs
    show (muxRun evs).termCount ≤ 1
    rw [muxRun]
    rcases hrun evs muxInit hinv0 with ⟨_, hc⟩ | ⟨_, hc⟩ <;> omega
  · intro evs
    have hfold : muxRun (evs ++ [MEvent.stop]) =
        muxStep (muxRun evs) MEvent.stop := by
      simp [muxRun, List.foldl_append]
    rw [hfold]
    rcases hrun evs muxInit hinv0 with ⟨hx, hc⟩ | ⟨hx, hc⟩
    · show (muxStep (muxRun evs) MEvent.stop).termCount = 1
      simp only [muxStep, muxRun] at *
      simp only [hx, Bool.false_eq_true, if_false, terminateM]
      split <;> simp [hc]
    · have hid : muxStep (muxRun evs) MEvent.stop = muxRun evs := by
        simp [muxStep, muxRun, hx]
      rw [hid]
      exact hc

/-- C8 witness: a single `Close` on an idle channel leaves one pending
stop signal. -/
theorem close_idempotent_witness : closeIter 1 false = true :=
  close_idempotent_single_broadcast.2.1 1 false (Nat.le_refl 1)

/-- C9 counterexample: a frame whose 4-byte prefix has the high bit set
(here `2^31`, bytes `[128, 0, 0, 0]`) is read into a negative `int32`,
and `make([]byte, size)` panics — the reader does not fail with a
transport error as the short-body contract claims. -/
theorem readFrame_high_prefix_panics :
    readFrame [128, 0, 0, 0] = .panicked ∧
    readFrame [128, 0, 0, 0] ≠ .transportErr := by decide

/-- C9 amended: (1) for every payload shorter than `2^32` the writer
emits the 4-byte big-endian pattern of the exact length followed by the
payload (so the prefix bytes are the correct unsigned value also in
`[2^31, 2^32)`, where `int32` truncation preserves the bit pattern);
(2) a written frame followed by any further stream bytes is read back
exactly when the length is below `2^31`; (3) a stream shorter than the
4-byte header fails with a transport error; (4) a prefix below `2^31`
with too few remaining bytes fails with a transport error; (5) a prefix
below `2^31` with enough bytes yields exactly that many bytes; (6) a
prefix at or above `2^31` is read as a negative `int32` and panics at
`make` instead of failing with a transport error. -/
theorem frame_codec_spec_amended :
    (∀ payload : List Nat, payload.length < W →
        writeFrame payload = be32 payload.length ++ payload) ∧
    (∀ payload : List Nat, payload.length < 2 ^ 31 → ∀ extra : List Nat,
        readFrame (writeFrame payload ++ extra) = FrameRead.ok payload) ∧
    (∀ s : List Nat, s.length < 4 → readFrame s = FrameRead.transportErr) ∧
    (∀ (b0 b1 b2 b3 : Nat) (rest : List Nat),
        beVal b0 b1 b2 b3 < 2 ^ 31 → rest.length < beVal b0 b1 b2 b3 →
        readFrame (b0 :: b1 :: b2 :: b3 :: rest) = FrameRead.transportErr) ∧
    (∀ (b0 b1 b2 b3 : Nat) (rest : List Nat),
        beVal b0 b1 b2 b3 < 2 ^ 31 → beVal b0 b1 b2 b3 ≤ rest.length →
        readFrame (b0 :: b1 :: b2 :: b3 :: rest) =
          FrameRead.ok (rest.take (beVal b0 b1 b2 b3)) ∧
        (rest.take (beVal b0 b1 b2 b3)).length = beVal b0 b1 b2 b3) ∧
    (∀ (b0 b1 b2 b3 : Nat) (rest : List Nat),
        2 ^ 31 ≤ beVal b0 b1 b2 b3 →
        readFrame (b0 :: b1 :: b2 :: b3 :: rest) = FrameRead.panicked) := by
  have hWpow : (2 : Nat) ^ 31 < 2 ^ 32 := by norm_num
  refine ⟨?_, ?_, ?_, ?_, ?_, ?_⟩
  · intro p h
    simp [writeFrame, Nat.mod_eq_of_lt h]
  · intro p hlt extra
    have hW : p.length < W := by
      simp only [W]
      omega
    have hbe := beVal_be32 p.length
    rw [show p.length % 2 ^ 32 = p.length from Nat.mod_eq_of_lt hW] at hbe
    simp only [writeFrame, Nat.mod_eq_of_lt hW, be32, List.cons_append,
      List.nil_append]
    simp only [readFrame, hbe]
    rw [if_neg (by omega), if_neg (by simp)]
    rw [List.take_left' rfl]
  · intro s h
    rcases s with _ | ⟨a, _ | ⟨b, _ | ⟨c, _ | ⟨d, rest⟩⟩⟩⟩
    · rfl
    · rfl
    · rfl
    · rfl
    · simp [List.length_cons] at h
      omega
  · intro b0 b1 b2 b3 rest h1 h2
    simp only [readFrame]
    rw [if_neg (by omega), if_pos h2]
  · intro b0 b1 b2 b3 rest h1 h2
    refine ⟨?_, ?_⟩
    · simp only [readFrame]
      rw [if_neg (by omega), if_neg (by omega)]
    · simp [List.length_take, Nat.min_eq_left h2]
  · intro b0 b1 b2 b3 rest h
    simp only [readFrame]
    rw [if_pos h]

/-- C9 witness: a three-byte frame round-trips through the codec even
with trailing stream data. -/
theorem frame_codec_witness :
    readFrame (writeFrame [7, 8, 9] ++ [1]) = FrameRead.ok [7, 8, 9] :=
  frame_codec_spec_amended.2.1 [7, 8, 9] (by norm_num) [1]

/-- C10: (1) a successful `Wait` builds its event with
`Flag = *t.resp.Flags & (set | del)`; (2) that flag retains only the
`set` and `del` bits (masking it again changes nothing); (3) every bit
set in it is bit 2 (`set` = 4) or bit 3 (`del` = 8); (4) a `Walk`
iteration copies the response flags into the event unmasked; (5) some
flag value survives `Walk` but would be cut by `Wait`'s mask. -/
theorem wait_masks_walk_copies_flags :
    (∀ (r : Resp) (rv : Int) (p : String) (fl : Nat),
        r.rev = some rv → r.path = some p → r.flags = some fl →
        Wait (Except.ok r) =
          GoResult.ok ⟨rv, p, r.value, fl &&& (set ||| del)⟩) ∧
    (∀ (r : Resp) (ev : Event), Wait (Except.ok r) = GoResult.ok ev →
        ev.flag &&& (set ||| del) = ev.flag) ∧
    (∀ (r : Resp) (ev : Event) (i : Nat),
        Wait (Except.ok r) = GoResult.ok ev →
        ev.flag.testBit i = true → i = 2 ∨ i = 3) ∧
    (∀ (srv : Nat → Except CErr Resp) (off : Nat) (lim : Int)
        (acc : List Event) (fuel : Nat) (r : Resp) (rv : Int) (p : String)
        (fl : Nat), lim ≠ 0 → srv (off % W) = Except.ok r →
        r.rev = some rv → r.path = some p → r.flags = some fl →
        walkLoop srv off lim acc (fuel + 1) =
          walkLoop srv (off + 1) (lim - 1)
            (acc ++ [⟨rv, p, r.value, fl⟩]) fuel) ∧
    (∃ fl : Nat, fl &&& (set ||| del) ≠ fl) := by
  have hmask : ∀ fl : Nat, (fl &&& 12) &&& 12 = fl &&& 12 := by
    intro fl
    apply Nat.eq_of_testBit_eq
    intro i
    simp [Nat.testBit_land, Bool.and_assoc]
  have hwait : ∀ (r : Resp) (ev : Event), Wait (Except.ok r) = GoResult.ok ev →
      ∃ fl : Nat, r.flags = some fl ∧ ev.flag = fl &&& 12 := by
    intro r ev h
    cases hrv : r.rev with
    | none => simp [Wait, hrv] at h
    | some rv =>
      cases hp : r.path with
      | none => simp [Wait, hrv, hp] at h
      | some p =>
        cases hfl : r.flags with
        | none => simp [Wait, hrv, hp, hfl] at h
        | some fl =>
          refine ⟨fl, rfl, ?_⟩
          simp only [Wait, hrv, hp, hfl] at h
          injection h with h2
          rw [← h2]
          rfl
  refine ⟨?_, ?_, ?_, ?_, ⟨16, by decide⟩⟩
  · intro r rv p fl hrv hp hfl
    simp [Wait, hrv, hp, hfl]
  · intro r ev h
    obtain ⟨fl, _, hev⟩ := hwait r ev h
    rw [hev]
    exact hmask fl
  · intro r ev i h htb
    obtain ⟨fl, _, hev⟩ := hwait r ev h
    rw [hev, Nat.testBit_land] at htb
    exact testBit_twelve i (Bool.and_elim_right htb)
  · intro srv off lim acc fuel r rv p fl hl hsrv hrv hp hfl
    simp only [walkLoop, if_neg hl, hsrv, hrv, hp, hfl]

/-- C10 witness: a `Wait` reply with flags `5` (bits 0 and 2) yields an
event flag of `4`: only the `set` bit survives the mask. -/
theorem wait_walk_flags_witness :
    Wait (Except.ok
        { emptyResp with rev := some 1, path := some "x", flags := some 5 }) =
      GoResult.ok ⟨1, "x", "", 4⟩ :=
  (wait_masks_walk_copies_flags.1
    { emptyResp with rev := some 1, path := some "x", flags := some 5 }
    1 "x" 5 rfl rfl rfl).trans (by decide)

end Doozer
